import Mathlib

/-!
Verification development for the `intelligent_qa_assistant` repository.

Shallow embedding of the four Python modules:
* `src/data_processing/structurizer.py` — fixed-size overlapping chunker
* `src/data_processing/cleaner.py` — text normalization
* `src/data_processing/loader.py` — extension-dispatched document loading
* `src/rag_core/llm_integrator.py` — LLM HTTP client

Python strings are modelled as `List Char`, machine integers as `Int`/`Nat`
(Python integers are unbounded, so no overflow modelling is needed), the
filesystem and the HTTP transport as explicit oracles, and Python exceptions
as `Except` values.
-/

namespace QA

/-- Python slice `text[a:b]` for `0 ≤ a ≤ b` (the only shape the code uses). -/
def pySlice (l : List Char) (a b : Nat) : List Char :=
  (l.drop a).take (b - a)

/-!
## Chunker: `split_text_by_fixed_size` (structurizer.py lines 18–54)

The `while` loop of the Python function is embedded with explicit fuel; the
function itself supplies fuel `text.length`, which is proved sufficient
(`chunkLoop_fuel_irrelevant`): the cursor strictly increases by the stride
`chunk_size - chunk_overlap ≥ 1` each iteration.
-/

/-- The body of the `while start_index < text_len` loop of
`split_text_by_fixed_size`, with fuel.  `start` is `start_index`.
Mirrors lines 31–45 of structurizer.py: emit `text[start:end]` with
`end = min(start + chunk_size, text_len)`; stop if `end == text_len`;
otherwise advance by the stride and iterate (the guarded branch at lines
43–45 is `pass`, a no-op, so it does not appear here; it is modelled
separately by `chunkLoopBranchHit`). -/
def chunkLoop (text : List Char) (cs ov : Nat) : Nat → Nat → List (List Char)
  | 0, _ => []
  | fuel + 1, start =>
    if start < text.length then
      let e := min (start + cs) text.length
      let c := pySlice text start e
      if e = text.length then [c]
      else c :: chunkLoop text cs ov fuel (start + (cs - ov))
    else []

/-- `split_text_by_fixed_size(text, chunk_size, chunk_overlap)`
(structurizer.py lines 18–54).  The `-> List[str]` result or the raised
`ValueError` message.  Note the order of the checks in the source: the
empty-input check at line 18 precedes all three parameter validations. -/
def split_text_by_fixed_size (text : List Char) (chunk_size chunk_overlap : Int) :
    Except String (List (List Char)) :=
  if text = [] then .ok []
  else if chunk_size ≤ 0 then .error "Chunk size must be positive."
  else if chunk_overlap < 0 then .error "Chunk overlap cannot be negative."
  else if chunk_size ≤ chunk_overlap then .error "Chunk overlap should be less than chunk size."
  else .ok (chunkLoop text chunk_size.toNat chunk_overlap.toNat text.length 0)

/-- With any positive fuel, the loop starting strictly inside the text emits
at least one chunk. -/
theorem chunkLoop_ne_nil (text : List Char) (cs ov : Nat) (fuel start : Nat)
    (hs : start < text.length) (hf : 0 < fuel) :
    chunkLoop text cs ov fuel start ≠ [] := by
  obtain ⟨f, rfl⟩ : ∃ f, fuel = f + 1 := ⟨fuel - 1, by omega⟩
  simp only [chunkLoop, if_pos hs]
  split <;> simp

/-- Positional characterisation of the loop: the `i`-th emitted chunk is the
slice of the source text starting at `start + i * stride` and extending
`chunk_size` characters (clamped at the end of the text). -/
theorem chunkLoop_getElem (text : List Char) (cs ov : Nat) (hov : ov < cs) :
    ∀ fuel start, start < text.length → text.length - start ≤ fuel →
      ∀ i, i < (chunkLoop text cs ov fuel start).length →
        (chunkLoop text cs ov fuel start)[i]? =
          some (pySlice text (start + i * (cs - ov))
            (min (start + i * (cs - ov) + cs) text.length)) := by
  intro fuel
  induction fuel with
  | zero => intro start hs hf; omega
  | succ f ih =>
    intro start hs hf i hi
    simp only [chunkLoop, if_pos hs] at hi ⊢
    by_cases he : min (start + cs) text.length = text.length
    · rw [if_pos he] at hi ⊢
      simp only [List.length_cons, List.length_nil] at hi
      have hi0 : i = 0 := by omega
      subst hi0
      simp
    · rw [if_neg he] at hi ⊢
      have hcs : start + cs < text.length := by omega
      cases i with
      | zero => simp
      | succ j =>
        simp only [List.getElem?_cons_succ]
        simp only [List.length_cons] at hi
        have hs' : start + (cs - ov) < text.length := by omega
        have hf' : text.length - (start + (cs - ov)) ≤ f := by omega
        rw [ih (start + (cs - ov)) hs' hf' j (by omega)]
        have h1 : start + (cs - ov) + j * (cs - ov) = start + (j + 1) * (cs - ov) := by ring
        rw [h1]

/-- Positions of the emitted chunks: every chunk starts strictly inside the
text, and every chunk except the last ends strictly before the end of the
text (its full `chunk_size` characters fit). -/
theorem chunkLoop_start_bound (text : List Char) (cs ov : Nat) (hov : ov < cs) :
    ∀ fuel start, start < text.length → text.length - start ≤ fuel →
      ∀ i, i < (chunkLoop text cs ov fuel start).length →
        start + i * (cs - ov) < text.length ∧
        (i + 1 < (chunkLoop text cs ov fuel start).length →
          start + i * (cs - ov) + cs < text.length) := by
  intro fuel
  induction fuel with
  | zero => intro start hs hf; omega
  | succ f ih =>
    intro start hs hf i hi
    simp only [chunkLoop, if_pos hs] at hi ⊢
    by_cases he : min (start + cs) text.length = text.length
    · rw [if_pos he] at hi ⊢
      simp only [List.length_cons, List.length_nil] at hi ⊢
      have hi0 : i = 0 := by omega
      subst hi0
      exact ⟨by omega, by omega⟩
    · rw [if_neg he] at hi ⊢
      have hcs : start + cs < text.length := by omega
      simp only [List.length_cons] at hi ⊢
      have hs' : start + (cs - ov) < text.length := by omega
      have hf' : text.length - (start + (cs - ov)) ≤ f := by omega
      cases i with
      | zero =>
        refine ⟨by omega, fun h1 => by omega⟩
      | succ j =>
        have := ih (start + (cs - ov)) hs' hf' j (by omega)
        have h1 : start + (cs - ov) + j * (cs - ov) = start + (j + 1) * (cs - ov) := by ring
        rw [h1] at this
        exact ⟨this.1, fun h2 => this.2 (by omega)⟩

theorem pySlice_length (l : List Char) (a b : Nat) :
    (pySlice l a b).length = min (b - a) (l.length - a) := by
  simp [pySlice]

theorem pySlice_drop (l : List Char) (a b k : Nat) :
    (pySlice l a b).drop k = pySlice l (a + k) b := by
  simp only [pySlice, List.drop_take, List.drop_drop]
  rw [show b - a - k = b - (a + k) by omega]

theorem pySlice_take (l : List Char) (a b k : Nat) :
    (pySlice l a b).take k = pySlice l a (min (a + k) b) := by
  simp only [pySlice, List.take_take]
  congr 1
  omega

/-- On non-empty text with valid parameters, the function reaches its loop. -/
theorem split_eq_chunkLoop (text : List Char) (cs ov : Int) (ht : text ≠ [])
    (hcs : 0 < cs) (hov0 : 0 ≤ ov) (hov : ov < cs) :
    split_text_by_fixed_size text cs ov =
      .ok (chunkLoop text cs.toNat ov.toNat text.length 0) := by
  simp only [split_text_by_fixed_size, if_neg ht]
  rw [if_neg (by omega), if_neg (by omega), if_neg (by omega)]

/-- **C1**: with `chunk_size > 0` and `0 ≤ chunk_overlap < chunk_size`, every
chunk returned by `split_text_by_fixed_size` except the last has length
exactly `chunk_size`, the last chunk has length in `(0, chunk_size]` (no
chunk is empty), and each pair of consecutive chunks overlaps in exactly
`chunk_overlap` characters of the source text: the last `chunk_overlap`
characters of a chunk are the first `chunk_overlap` characters of the next. -/
theorem split_chunk_shape (text : List Char) (chunk_size chunk_overlap : Int)
    (hcs : 0 < chunk_size) (hov0 : 0 ≤ chunk_overlap) (hov : chunk_overlap < chunk_size)
    (chunks : List (List Char))
    (hok : split_text_by_fixed_size text chunk_size chunk_overlap = .ok chunks) :
    (∀ i c, chunks[i]? = some c → i + 1 < chunks.length → c.length = chunk_size.toNat) ∧
    (∀ h2 : chunks ≠ [], 0 < (chunks.getLast h2).length ∧
      (chunks.getLast h2).length ≤ chunk_size.toNat) ∧
    (∀ i c c', chunks[i]? = some c → chunks[i + 1]? = some c' →
      c'.take chunk_overlap.toNat = c.drop (chunk_size.toNat - chunk_overlap.toNat) ∧
      (c'.take chunk_overlap.toNat).length = chunk_overlap.toNat) := by
  by_cases ht : text = []
  · subst ht
    simp only [split_text_by_fixed_size, if_pos rfl] at hok
    injection hok with h
    subst h
    refine ⟨?_, ?_, ?_⟩
    · intro i c hic _
      simp at hic
    · intro h2
      exact absurd rfl h2
    · intro i c c' hic _
      simp at hic
  · rw [split_eq_chunkLoop text _ _ ht hcs hov0 hov] at hok
    injection hok with h
    subst h
    set N := chunk_size.toNat with hN
    set V := chunk_overlap.toNat with hV
    have hovN : V < N := by omega
    have hn : 0 < text.length := List.length_pos.2 ht
    have hf : text.length - 0 ≤ text.length := by omega
    refine ⟨?_, ?_, ?_⟩
    · intro i c hic hlt
      have hilt : i < (chunkLoop text N V text.length 0).length :=
        (List.getElem?_eq_some.mp hic).1
      rw [chunkLoop_getElem text N V hovN text.length 0 hn hf i hilt] at hic
      injection hic with hc
      subst hc
      have hb := (chunkLoop_start_bound text N V hovN text.length 0 hn hf i hilt).2 hlt
      rw [pySlice_length]
      omega
    · intro h2
      have hlen : 0 < (chunkLoop text N V text.length 0).length := List.length_pos.2 h2
      rw [List.getLast_eq_getElem]
      have hilt : (chunkLoop text N V text.length 0).length - 1 <
          (chunkLoop text N V text.length 0).length := by omega
      have hget := chunkLoop_getElem text N V hovN text.length 0 hn hf _ hilt
      rw [List.getElem?_eq_getElem hilt] at hget
      injection hget with hc
      rw [hc, pySlice_length]
      have hb := (chunkLoop_start_bound text N V hovN text.length 0 hn hf _ hilt).1
      constructor <;> omega
    · intro i c c' hic hic'
      have hilt' : i + 1 < (chunkLoop text N V text.length 0).length :=
        (List.getElem?_eq_some.mp hic').1
      have hilt : i < (chunkLoop text N V text.length 0).length := by omega
      rw [chunkLoop_getElem text N V hovN text.length 0 hn hf i hilt] at hic
      rw [chunkLoop_getElem text N V hovN text.length 0 hn hf (i + 1) hilt'] at hic'
      injection hic with hc
      injection hic' with hc'
      subst hc
      subst hc'
      have hb := (chunkLoop_start_bound text N V hovN text.length 0 hn hf i hilt).2 hilt'
      have hmul : (i + 1) * (N - V) = i * (N - V) + (N - V) := by ring
      rw [hmul]
      have hmin : min (0 + i * (N - V) + N) text.length = 0 + i * (N - V) + N := by omega
      rw [hmin, pySlice_drop, pySlice_take]
      constructor
      · congr 1 <;> omega
      · rw [pySlice_length]
        omega

/-- Witness for `split_chunk_shape` at `split("abcdefghij", 4, 2)`:
chunk 1 (`"cdef"`) begins with the 2 characters chunk 0 (`"abcd"`) ends with. -/
theorem split_chunk_shape_witness :
    "cdef".toList.take 2 = "abcd".toList.drop 2 ∧ ("cdef".toList.take 2).length = 2 :=
  (split_chunk_shape "abcdefghij".toList 4 2 (by norm_num) (by norm_num) (by norm_num)
    ["abcd".toList, "cdef".toList, "efgh".toList, "ghij".toList] (by rfl)).2.2
    0 "abcd".toList "cdef".toList (by rfl) (by rfl)

/-- The concatenation described by claim C2: the first chunk followed by every
subsequent chunk with its first `ov` characters dropped. -/
def reconstruct (ov : Nat) : List (List Char) → List Char
  | [] => []
  | c :: rest => c ++ (rest.map (List.drop ov)).flatten

/-- The loop's chunks, recombined as in `reconstruct`, give back the text from
the loop's starting cursor onward. -/
theorem chunkLoop_reconstruct (text : List Char) (cs ov : Nat) (hov : ov < cs) :
    ∀ fuel start, start < text.length → text.length - start ≤ fuel →
      reconstruct ov (chunkLoop text cs ov fuel start) = text.drop start := by
  intro fuel
  induction fuel with
  | zero => intro start hs hf; omega
  | succ f ih =>
    intro start hs hf
    simp only [chunkLoop, if_pos hs]
    by_cases he : min (start + cs) text.length = text.length
    · rw [if_pos he]
      simp only [reconstruct, List.map_nil, List.flatten_nil, List.append_nil, pySlice, he]
      exact List.take_of_length_le (by simp)
    · rw [if_neg he]
      have hcs : start + cs < text.length := by omega
      have hs' : start + (cs - ov) < text.length := by omega
      have hf' : text.length - (start + (cs - ov)) ≤ f := by omega
      have hrec := ih (start + (cs - ov)) hs' hf'
      have hne := chunkLoop_ne_nil text cs ov f (start + (cs - ov)) hs' (by omega)
      obtain ⟨h, t, hht⟩ := List.exists_cons_of_ne_nil hne
      have h0lt : 0 < (chunkLoop text cs ov f (start + (cs - ov))).length := by
        rw [hht]; simp
      have hget := chunkLoop_getElem text cs ov hov f (start + (cs - ov)) hs' hf' 0 h0lt
      rw [hht] at hget
      simp only [List.getElem?_cons_zero, Option.some.injEq] at hget
      have hhlen : ov ≤ h.length := by
        rw [hget, pySlice_length]
        omega
      rw [hht] at hrec ⊢
      simp only [reconstruct, List.map_cons, List.flatten_cons] at hrec ⊢
      have key : List.drop ov h ++ (t.map (List.drop ov)).flatten =
          text.drop (start + cs) := by
        have hcg := congrArg (List.drop ov) hrec
        rw [List.drop_append_of_le_length hhlen, List.drop_drop,
          show start + (cs - ov) + ov = start + cs by omega] at hcg
        exact hcg
      rw [key, show min (start + cs) text.length = start + cs by omega]
      simp only [pySlice]
      rw [show start + cs - start = cs by omega, ← List.drop_drop]
      exact List.take_append_drop cs (text.drop start)

/-- **C2**: with valid parameters, concatenating the first chunk with every
subsequent chunk minus its first `chunk_overlap` characters reconstructs the
original text exactly (the empty concatenation for empty text). -/
theorem split_reconstruct (text : List Char) (chunk_size chunk_overlap : Int)
    (hcs : 0 < chunk_size) (hov0 : 0 ≤ chunk_overlap) (hov : chunk_overlap < chunk_size)
    (chunks : List (List Char))
    (hok : split_text_by_fixed_size text chunk_size chunk_overlap = .ok chunks) :
    reconstruct chunk_overlap.toNat chunks = text := by
  by_cases ht : text = []
  · subst ht
    simp only [split_text_by_fixed_size, if_pos rfl] at hok
    injection hok with h
    subst h
    rfl
  · rw [split_eq_chunkLoop text _ _ ht hcs hov0 hov] at hok
    injection hok with h
    subst h
    have hn : 0 < text.length := List.length_pos.2 ht
    have := chunkLoop_reconstruct text chunk_size.toNat chunk_overlap.toNat (by omega)
      text.length 0 hn (by omega)
    simpa using this

/-- Witness for `split_reconstruct` at `split("abcdefghij", 4, 2)`. -/
theorem split_reconstruct_witness :
    reconstruct 2 ["abcd".toList, "cdef".toList, "efgh".toList, "ghij".toList] =
      "abcdefghij".toList :=
  split_reconstruct "abcdefghij".toList 4 2 (by norm_num) (by norm_num) (by norm_num)
    ["abcd".toList, "cdef".toList, "efgh".toList, "ghij".toList] (by rfl)

/-- **C4**: a non-empty text no longer than `chunk_size` yields exactly one
chunk, the whole text; and the spec's reference examples hold exactly:
`split("", 100, 10) = []`, `split("abc", 100, 10) = ["abc"]`, and
`split("abcdefghij", 4, 2) = ["abcd", "cdef", "efgh", "ghij"]` with no
trailing `"ij"`-only fragment. -/
theorem split_short_text_and_examples (text : List Char) (chunk_size chunk_overlap : Int)
    (hcs : 0 < chunk_size) (hov0 : 0 ≤ chunk_overlap) (hov : chunk_overlap < chunk_size)
    (ht : text ≠ []) (hlen : (text.length : Int) ≤ chunk_size) :
    split_text_by_fixed_size text chunk_size chunk_overlap = .ok [text] ∧
    split_text_by_fixed_size [] 100 10 = .ok [] ∧
    split_text_by_fixed_size "abc".toList 100 10 = .ok ["abc".toList] ∧
    split_text_by_fixed_size "abcdefghij".toList 4 2 =
      .ok ["abcd".toList, "cdef".toList, "efgh".toList, "ghij".toList] := by
  refine ⟨?_, by rfl, by rfl, by rfl⟩
  rw [split_eq_chunkLoop text _ _ ht hcs hov0 hov]
  have hn : 0 < text.length := List.length_pos.2 ht
  obtain ⟨f, hfuel⟩ : ∃ f, text.length = f + 1 := ⟨text.length - 1, by omega⟩
  rw [hfuel]
  simp only [chunkLoop, if_pos (by omega : 0 < text.length)]
  have hmin : min (0 + chunk_size.toNat) text.length = text.length := by omega
  rw [if_pos hmin, hmin]
  simp [pySlice]

/-- Witness for `split_short_text_and_examples` at `split("abc", 100, 10)`. -/
theorem split_short_text_witness :
    split_text_by_fixed_size "abc".toList 100 10 = .ok ["abc".toList] :=
  (split_short_text_and_examples "abc".toList 100 10 (by norm_num) (by norm_num)
    (by norm_num) (by decide) (by norm_num)).1

/-- **C3 counterexample**: on the empty string with the invalid parameters
`chunk_size = 0` and `chunk_overlap = 0` the function returns `[]` and does
not fail: the empty-input check at line 18 of structurizer.py runs before any
parameter validation, so no `ValueError` is raised. -/
theorem split_empty_invalid_counterexample :
    split_text_by_fixed_size [] 0 0 = .ok [] ∧
    ¬ ∃ msg, split_text_by_fixed_size [] 0 0 = .error msg :=
  ⟨rfl, fun ⟨_, h⟩ => nomatch h⟩

/-- **C3 amended**: for every *non-empty* text, any invalid parameter pair
(`chunk_size ≤ 0`, `chunk_overlap < 0`, or `chunk_overlap ≥ chunk_size`)
always fails with a `ValueError` and never returns a result; empty input
returns the empty sequence — but it does so for *all* parameter values,
invalid ones included, because the empty-input check precedes validation. -/
theorem split_invalid_params (text : List Char) (chunk_size chunk_overlap : Int) :
    (text ≠ [] →
      (chunk_size ≤ 0 ∨ chunk_overlap < 0 ∨ chunk_size ≤ chunk_overlap) →
      ∃ msg, split_text_by_fixed_size text chunk_size chunk_overlap = .error msg) ∧
    split_text_by_fixed_size [] chunk_size chunk_overlap = .ok [] := by
  constructor
  · intro ht hbad
    simp only [split_text_by_fixed_size, if_neg ht]
    by_cases h1 : chunk_size ≤ 0
    · exact ⟨_, by rw [if_pos h1]⟩
    · by_cases h2 : chunk_overlap < 0
      · exact ⟨_, by rw [if_neg h1, if_pos h2]⟩
      · have h3 : chunk_size ≤ chunk_overlap := by
          rcases hbad with h | h | h
          · omega
          · omega
          · exact h
        exact ⟨_, by rw [if_neg h1, if_neg h2, if_pos h3]⟩
  · rfl

/-- Witness for `split_invalid_params`: `split("abc", 0, 0)` raises. -/
theorem split_invalid_params_witness :
    ∃ msg, split_text_by_fixed_size "abc".toList 0 0 = .error msg :=
  (split_invalid_params "abc".toList 0 0).1 (by decide) (Or.inl (by norm_num))

/-- **C5**: the stride `chunk_size - chunk_overlap` is at least 1, the cursor
strictly increases each iteration, and the loop terminates: its value is
independent of the fuel once the fuel covers the number of characters left of
the cursor (in particular the fuel `text.length` used by
`split_text_by_fixed_size` always suffices). -/
theorem chunkLoop_terminates (text : List Char) (cs ov : Nat) (hov : ov < cs) :
    1 ≤ cs - ov ∧
    (∀ start, start < start + (cs - ov)) ∧
    ∀ f1 f2 start, text.length - start ≤ f1 → text.length - start ≤ f2 →
      chunkLoop text cs ov f1 start = chunkLoop text cs ov f2 start := by
  refine ⟨by omega, fun start => by omega, ?_⟩
  intro f1
  induction f1 with
  | zero =>
    intro f2 start h1 h2
    have hs : ¬ start < text.length := by omega
    cases f2 with
    | zero => rfl
    | succ g => simp only [chunkLoop, if_neg hs]
  | succ f ih =>
    intro f2 start h1 h2
    cases f2 with
    | zero =>
      have hs : ¬ start < text.length := by omega
      simp only [chunkLoop, if_neg hs]
    | succ g =>
      by_cases hs : start < text.length
      · simp only [chunkLoop, if_pos hs]
        by_cases he : min (start + cs) text.length = text.length
        · rw [if_pos he, if_pos he]
        · rw [if_neg he, if_neg he]
          congr 1
          exact ih g (start + (cs - ov)) (by omega) (by omega)
      · simp only [chunkLoop, if_neg hs]

/-- Witness for `chunkLoop_terminates`: on `"ab"` with `chunk_size = 1`,
`chunk_overlap = 0`, fuel 2 and fuel 5 give the same chunks. -/
theorem chunkLoop_terminates_witness :
    chunkLoop "ab".toList 1 0 2 0 = chunkLoop "ab".toList 1 0 5 0 :=
  (chunkLoop_terminates "ab".toList 1 0 (by norm_num)).2.2 2 5 0 (by decide) (by decide)

/-- The loop of `split_text_by_fixed_size` instrumented to report whether the
guarded defensive branch at lines 43–45 of structurizer.py ("avoid re-adding
the last chunk") is ever entered.  The guard is
`start_index >= text_len and chunks[-1] != text[text_len-chunk_size if
text_len-chunk_size > 0 else 0:]`; the branch body is `pass`, so the loop
continues identically either way, and the instrumented loop returns `true`
exactly when some iteration satisfies the guard. -/
def chunkLoopBranchHit (text : List Char) (cs ov : Nat) :
    Nat → Nat → List (List Char) → Bool
  | 0, _, _ => false
  | fuel + 1, start, chunks =>
    if start < text.length then
      let e := min (start + cs) text.length
      let chunks' := chunks ++ [pySlice text start e]
      if e = text.length then false
      else
        let start' := start + (cs - ov)
        let tail := text.drop (if 0 < text.length - cs then text.length - cs else 0)
        if text.length ≤ start' ∧ chunks'.getLast? ≠ some tail then true
        else chunkLoopBranchHit text cs ov fuel start' chunks'
    else false

/-- **C6**: the defensive branch is unreachable.  Whenever the loop advances
(the emitted chunk did not reach the end of the text) the new cursor is still
strictly less than the text length, so the guard `start_index >= text_len`
never holds and the instrumented loop never reports the branch as entered. -/
theorem chunkLoop_dead_branch (text : List Char) (cs ov : Nat)
    (hcs : 0 < cs) (hov : ov < cs) :
    (∀ start, start < text.length → min (start + cs) text.length ≠ text.length →
      start + (cs - ov) < text.length) ∧
    ∀ fuel start chunks, chunkLoopBranchHit text cs ov fuel start chunks = false := by
  have hc : 0 < cs ∧ ov < cs := ⟨hcs, hov⟩
  refine ⟨fun start h1 h2 => by omega, ?_⟩
  intro fuel
  induction fuel with
  | zero => intro start chunks; rfl
  | succ f ih =>
    intro start chunks
    simp only [chunkLoopBranchHit]
    by_cases hs : start < text.length
    · rw [if_pos hs]
      by_cases he : min (start + cs) text.length = text.length
      · rw [if_pos he]
      · rw [if_neg he]
        rw [if_neg (by rintro ⟨hg, -⟩; omega)]
        exact ih _ _
    · rw [if_neg hs]

/-- Witness for `chunkLoop_dead_branch` on `split("abcdefghij", 4, 2)`'s loop. -/
theorem chunkLoop_dead_branch_witness :
    chunkLoopBranchHit "abcdefghij".toList 4 2 10 0 [] = false :=
  (chunkLoop_dead_branch "abcdefghij".toList 4 2 (by norm_num) (by norm_num)).2 10 0 []

/-!
## Text cleaner: `TextCleaner` (cleaner.py)

`clean_text` lowercases, then normalizes whitespace, then (optionally)
filters the text through the allow-list regex `[^a-z0-9\s.,?!']`.
-/

/-- The characters matched by the regex class `\s` (ASCII range; Python's
`re` also matches the rarer non-ASCII Unicode whitespace, not modelled). -/
def isPySpace (c : Char) : Bool :=
  c = ' ' || c = '\t' || c = '\n' || c = '\r' || c = '\x0b' || c = '\x0c'

/-- `str.lower` on the ASCII range (code points 65–90 shift to 97–122). -/
def pyLower (c : Char) : Char :=
  if 65 ≤ c.toNat ∧ c.toNat ≤ 90 then Char.ofNat (c.toNat + 32) else c

/-- `re.sub(r'\s+', ' ', text)`: each maximal whitespace run becomes a single
space.  The flag records whether the previous character was whitespace (the
run has already emitted its replacement space). -/
def subWs : List Char → Bool → List Char
  | [], _ => []
  | c :: cs, inRun =>
    if isPySpace c then
      if inRun then subWs cs true else ' ' :: subWs cs true
    else c :: subWs cs false

/-- `str.strip()`: drop leading and trailing whitespace. -/
def pyStrip (l : List Char) : List Char :=
  ((l.dropWhile isPySpace).reverse.dropWhile isPySpace).reverse

/-- `TextCleaner.normalize_whitespace` (cleaner.py lines 28–31):
`re.sub(r'\s+', ' ', text).strip()`. -/
def normalize_whitespace (text : List Char) : List Char :=
  pyStrip (subWs text false)

/-- The allow-list of the regex `[^a-z0-9\s.,?!']` at cleaner.py line 24. -/
def isAllowedChar (c : Char) : Bool :=
  ('a' ≤ c && c ≤ 'z') || ('0' ≤ c && c ≤ '9') || isPySpace c ||
    c = '.' || c = ',' || c = '?' || c = '!' || c = '\''

/-- `TextCleaner.clean_text` (cleaner.py lines 15–26); the flag is the
constructor's `remove_special_chars`. -/
def clean_text (remove_special_chars : Bool) (text : List Char) : List Char :=
  let lowered := text.map pyLower
  let normalized := normalize_whitespace lowered
  if remove_special_chars then normalized.filter (fun c => isAllowedChar c) else normalized

/-- Decidable check that no two adjacent characters are both whitespace. -/
def noTwoWs : List Char → Bool
  | a :: b :: rest => (!(isPySpace a && isPySpace b)) && noTwoWs (b :: rest)
  | _ => true

theorem pyLower_not_upper (c : Char) :
    ¬(65 ≤ (pyLower c).toNat ∧ (pyLower c).toNat ≤ 90) := by
  unfold pyLower
  split
  · rename_i h
    obtain ⟨h1, h2⟩ := h
    have key : ∀ m, 65 ≤ m → m ≤ 90 →
        ¬(65 ≤ (Char.ofNat (m + 32)).toNat ∧ (Char.ofNat (m + 32)).toNat ≤ 90) := by
      intro m hm1 hm2
      interval_cases m <;> decide
    exact key c.toNat h1 h2
  · rename_i h
    exact h

theorem mem_subWs (c : Char) : ∀ (l : List Char) (b : Bool),
    c ∈ subWs l b → c ∈ l ∨ c = ' '
  | [], _, h => by simp [subWs] at h
  | a :: t, b, h => by
    simp only [subWs] at h
    split at h
    · split at h
      · rcases mem_subWs c t true h with h1 | h1
        · exact Or.inl (List.mem_cons_of_mem _ h1)
        · exact Or.inr h1
      · rcases List.mem_cons.mp h with h1 | h1
        · exact Or.inr h1
        · rcases mem_subWs c t true h1 with h2 | h2
          · exact Or.inl (List.mem_cons_of_mem _ h2)
          · exact Or.inr h2
    · rcases List.mem_cons.mp h with h1 | h1
      · subst h1
        exact Or.inl (List.mem_cons_self _ _)
      · rcases mem_subWs c t false h1 with h2 | h2
        · exact Or.inl (List.mem_cons_of_mem _ h2)
        · exact Or.inr h2

theorem mem_pyStrip (l : List Char) (c : Char) (h : c ∈ pyStrip l) : c ∈ l := by
  obtain ⟨u2, hu2⟩ :=
    (List.dropWhile_suffix isPySpace : _ <:+ (l.dropWhile isPySpace).reverse)
  obtain ⟨u1, hu1⟩ := (List.dropWhile_suffix isPySpace : _ <:+ l)
  unfold pyStrip at h
  rw [List.mem_reverse] at h
  have h2 : c ∈ (l.dropWhile isPySpace).reverse := by
    rw [← hu2]
    exact List.mem_append.mpr (Or.inr h)
  rw [List.mem_reverse] at h2
  rw [← hu1]
  exact List.mem_append.mpr (Or.inr h2)

theorem head_dropWhile_not (p : Char → Bool) : ∀ (l : List Char) (c : Char),
    (l.dropWhile p).head? = some c → p c = false
  | [], c, h => by simp [List.dropWhile] at h
  | a :: t, c, h => by
    rw [List.dropWhile_cons] at h
    split at h
    · exact head_dropWhile_not p t c h
    · rename_i hp
      simp only [List.head?_cons, Option.some.injEq] at h
      subst h
      simpa using hp

theorem subWs_head_not_space : ∀ (l : List Char) (c : Char),
    (subWs l true).head? = some c → isPySpace c = false
  | [], c, h => by simp [subWs] at h
  | a :: t, c, h => by
    simp only [subWs] at h
    split at h
    · rw [if_pos trivial] at h
      exact subWs_head_not_space t c h
    · rename_i ha
      simp only [List.head?_cons, Option.some.injEq] at h
      subst h
      simpa using ha

theorem noTwoWs_cons_of_head (a : Char) (l : List Char)
    (h1 : ∀ x, l.head? = some x → (!(isPySpace a && isPySpace x)) = true)
    (h2 : noTwoWs l = true) : noTwoWs (a :: l) = true := by
  cases l with
  | nil => rfl
  | cons x t =>
    simp only [noTwoWs]
    rw [h1 x rfl, h2]
    rfl

theorem noTwoWs_subWs : ∀ (l : List Char) (b : Bool), noTwoWs (subWs l b) = true
  | [], _ => rfl
  | a :: t, b => by
    simp only [subWs]
    by_cases ha : isPySpace a = true
    · rw [if_pos ha]
      cases b with
      | true =>
        rw [if_pos rfl]
        exact noTwoWs_subWs t true
      | false =>
        rw [if_neg Bool.false_ne_true]
        refine noTwoWs_cons_of_head _ _ ?_ (noTwoWs_subWs t true)
        intro x hx
        have hxs := subWs_head_not_space t x hx
        simp [hxs]
    · rw [if_neg ha]
      refine noTwoWs_cons_of_head _ _ ?_ (noTwoWs_subWs t false)
      intro x _
      have ha' : isPySpace a = false := by simpa using ha
      simp [ha']

theorem noTwoWs_tail : ∀ (a : Char) (l : List Char),
    noTwoWs (a :: l) = true → noTwoWs l = true
  | _, [], _ => rfl
  | _, _ :: _, h => by
    simp only [noTwoWs, Bool.and_eq_true] at h
    exact h.2

theorem noTwoWs_append_right : ∀ (l₁ l₂ : List Char),
    noTwoWs (l₁ ++ l₂) = true → noTwoWs l₂ = true
  | [], _, h => h
  | a :: t, l₂, h => noTwoWs_append_right t l₂ (noTwoWs_tail a (t ++ l₂) h)

theorem noTwoWs_append_left : ∀ (l₁ l₂ : List Char),
    noTwoWs (l₁ ++ l₂) = true → noTwoWs l₁ = true
  | [], _, _ => rfl
  | [_], _, _ => rfl
  | a :: x :: t, l₂, h => by
    simp only [List.cons_append, noTwoWs, Bool.and_eq_true] at h
    simp only [noTwoWs, Bool.and_eq_true]
    exact ⟨h.1, noTwoWs_append_left (x :: t) l₂ h.2⟩

theorem pyStrip_split (l : List Char) :
    l = l.takeWhile isPySpace ++
      (pyStrip l ++ ((l.dropWhile isPySpace).reverse.takeWhile isPySpace).reverse) := by
  conv_lhs => rw [← List.takeWhile_append_dropWhile (p := isPySpace) (l := l)]
  congr 1
  conv_lhs => rw [← List.reverse_reverse (l.dropWhile isPySpace),
    ← List.takeWhile_append_dropWhile (p := isPySpace)
      (l := (l.dropWhile isPySpace).reverse)]
  rw [List.reverse_append]
  rfl

theorem noTwoWs_pyStrip (l : List Char) (h : noTwoWs l = true) :
    noTwoWs (pyStrip l) = true := by
  have h2 := pyStrip_split l ▸ h
  exact noTwoWs_append_left _ _ (noTwoWs_append_right _ _ h2)

theorem pyStrip_getLast_not_space (l : List Char) (c : Char)
    (h : (pyStrip l).getLast? = some c) : isPySpace c = false := by
  unfold pyStrip at h
  rw [List.getLast?_reverse] at h
  exact head_dropWhile_not _ _ _ h

theorem pyStrip_head_not_space (l : List Char) (c : Char)
    (h : (pyStrip l).head? = some c) : isPySpace c = false := by
  obtain ⟨u, hu⟩ :=
    (List.dropWhile_suffix isPySpace : _ <:+ (l.dropWhile isPySpace).reverse)
  unfold pyStrip at h
  rw [List.head?_reverse] at h
  have hne : (l.dropWhile isPySpace).reverse.dropWhile isPySpace ≠ [] := by
    intro h0
    rw [h0] at h
    simp at h
  have hX : ((l.dropWhile isPySpace).reverse).getLast? = some c := by
    rw [← hu, List.getLast?_append_of_ne_nil u hne]
    exact h
  rw [List.getLast?_reverse] at hX
  exact head_dropWhile_not _ _ _ hX

/-- **C7 counterexample**: with `remove_special_chars` enabled, removing a
disallowed character that sits between two spaces leaves two consecutive
spaces — `clean_text("a @ b")` is `"a  b"` — and removing one at the start
leaves leading whitespace — `clean_text("@ a")` is `" a"`.  The whitespace
normalization runs *before* the allow-list filter (cleaner.py lines 17–24),
so the claimed "never two consecutive whitespace characters, never starts or
ends with whitespace" does not hold for the returned string. -/
theorem clean_text_counterexample :
    clean_text true "a @ b".toList = "a  b".toList ∧
    noTwoWs (clean_text true "a @ b".toList) = false ∧
    clean_text true "@ a".toList = " a".toList ∧
    (clean_text true "@ a".toList).head? = some ' ' :=
  ⟨rfl, rfl, rfl, rfl⟩

/-- **C7 amended**: `clean_text` returns the input lowercased (no ASCII
uppercase remains).  With `remove_special_chars` disabled the result has
every whitespace run collapsed (no two consecutive whitespace characters)
and no leading or trailing whitespace.  With it enabled the result is
exactly that normalized string filtered through the allow-list
`{a-z, 0-9, whitespace, ., ,, ?, !, '}` — every remaining character is in
the set, but the filtering can reintroduce consecutive, leading or trailing
whitespace. -/
theorem clean_text_amended (b : Bool) (text : List Char) :
    (∀ c ∈ clean_text b text, ¬(65 ≤ c.toNat ∧ c.toNat ≤ 90)) ∧
    noTwoWs (clean_text false text) = true ∧
    (∀ c, (clean_text false text).head? = some c → isPySpace c = false) ∧
    (∀ c, (clean_text false text).getLast? = some c → isPySpace c = false) ∧
    (∀ c ∈ clean_text true text, isAllowedChar c = true) ∧
    clean_text true text = (clean_text false text).filter (fun c => isAllowedChar c) := by
  have key : ∀ c, c ∈ normalize_whitespace (text.map pyLower) →
      ¬(65 ≤ c.toNat ∧ c.toNat ≤ 90) := by
    intro c hc
    unfold normalize_whitespace at hc
    have h1 := mem_pyStrip _ _ hc
    rcases mem_subWs c _ false h1 with h2 | h2
    · rw [List.mem_map] at h2
      obtain ⟨d, _, hd⟩ := h2
      rw [← hd]
      exact pyLower_not_upper d
    · subst h2
      decide
  refine ⟨?_, ?_, ?_, ?_, ?_, rfl⟩
  · cases b with
    | false => exact fun c hc => key c hc
    | true => exact fun c hc => key c (List.mem_of_mem_filter hc)
  · exact noTwoWs_pyStrip _ (noTwoWs_subWs _ false)
  · exact fun c hc => pyStrip_head_not_space _ c hc
  · exact fun c hc => pyStrip_getLast_not_space _ c hc
  · exact fun c hc => List.of_mem_filter hc

/-- Witness for `clean_text_amended`: `clean_text(True, "A")` is `"a"`, whose
character is in the allow-list and is not ASCII uppercase. -/
theorem clean_text_amended_witness :
    isAllowedChar 'a' = true ∧ ¬(65 ≤ 'a'.toNat ∧ 'a'.toNat ≤ 90) :=
  ⟨(clean_text_amended true "A".toList).2.2.2.2.1 'a' (by decide),
   (clean_text_amended true "A".toList).1 'a' (by decide)⟩

/-!
## Document loader: `DocumentLoader` (loader.py)

The filesystem is an oracle `fs : path → Option contents`, where
`fs path = none` means `os.path.exists(path)` is false and `some contents`
stands for the text a UTF-8 `errors='ignore'` read of the file produces.
PDF extraction (the external PyMuPDF library) is a second oracle.
-/

/-- Index of the last occurrence of `c` in `l`, or `-1` (Python `str.rfind`
with a single-character needle). -/
def lastIndexOf : List Char → Char → Int
  | [], _ => -1
  | a :: l, c =>
    let r := lastIndexOf l c
    if 0 ≤ r then r + 1 else if a = c then 0 else -1

/-- The extension component of `os.path.splitext` (the posix
`genericpath._splitext` rule): the extension starts at the last dot, provided
that dot comes after the last path separator and some character of the
basename strictly before it is not a dot (leading dots alone never start an
extension). -/
def splitextExt (p : List Char) : List Char :=
  let sepIndex := lastIndexOf p '/'
  let dotIndex := lastIndexOf p '.'
  if sepIndex < dotIndex then
    if (List.range p.length).any (fun i =>
        decide (sepIndex < (i : Int)) && decide ((i : Int) < dotIndex) &&
          (p[i]? != some '.')) then
      p.drop dotIndex.toNat
    else []
  else []

/-- The sentinel string returned for image extensions at loader.py line 47. -/
def imageSentinel : List Char :=
  "[不支持处理图片文件，因为OCR功能未启用]".toList

/-- Outcome of opening a PDF and concatenating its pages' text via PyMuPDF. -/
inductive PdfOutcome
  | text (t : List Char)
  | exc (msg : List Char)

/-- `DocumentLoader._load_pdf` (loader.py lines 69–90): extracted text if any
non-whitespace text was found, a sentinel otherwise; a raised extraction error
is caught and converted to a sentinel; without PyMuPDF a third sentinel. -/
def loadPdf (pymupdfAvailable : Bool) (pdf : List Char → PdfOutcome)
    (path : List Char) : List Char :=
  if pymupdfAvailable then
    match pdf path with
    | .text t =>
      if pyStrip t ≠ [] then t
      else "[PDF中未找到可选中文本，可能为扫描件或图片PDF，OCR功能未启用]".toList
    | .exc msg => "[处理PDF时出错: ".toList ++ msg ++ "，OCR功能未启用]".toList
  else "[无法处理PDF文件：PyMuPDF (fitz) 库未安装，OCR功能未启用]".toList

/-- The only exception `load_document` can raise: `FileNotFoundError`. -/
inductive LoadError
  | fileNotFound (msg : List Char)

/-- `DocumentLoader.load_document` (loader.py lines 20–58).  Dispatch on the
extension of the lowercased path; the final branch is the best-effort text
read for unknown extensions (its `try/except` cannot fail in this model,
since the file exists and reading is total). -/
def load_document (fs : List Char → Option (List Char)) (pymupdfAvailable : Bool)
    (pdf : List Char → PdfOutcome) (path : List Char) : Except LoadError (List Char) :=
  match fs path with
  | none => .error (.fileNotFound ("文件未找到: ".toList ++ path))
  | some contents =>
    let ext := splitextExt (path.map pyLower)
    if ext = ".txt".toList then .ok contents
    else if ext = ".md".toList then .ok contents
    else if ext = ".pdf".toList then .ok (loadPdf pymupdfAvailable pdf path)
    else if ext ∈ [".jpg".toList, ".jpeg".toList, ".png".toList, ".bmp".toList,
        ".tiff".toList] then .ok imageSentinel
    else .ok contents

/-- On an existing path, `load_document` always returns a value. -/
theorem load_document_ok (fs : List Char → Option (List Char)) (avail : Bool)
    (pdf : List Char → PdfOutcome) (path c : List Char) (hfs : fs path = some c) :
    ∃ r, load_document fs avail pdf path = .ok r := by
  unfold load_document
  rw [hfs]
  dsimp only
  split
  · exact ⟨_, rfl⟩
  · split
    · exact ⟨_, rfl⟩
    · split
      · exact ⟨_, rfl⟩
      · split
        · exact ⟨_, rfl⟩
        · exact ⟨_, rfl⟩

/-- **C8**: `load_document` fails with `FileNotFoundError` exactly when the
path does not exist; an existing file whose (lowercased) path has extension
`.txt` yields the file's exact contents; an existing file with an image
extension yields the diagnostic sentinel rather than an error. -/
theorem load_document_spec (fs : List Char → Option (List Char)) (avail : Bool)
    (pdf : List Char → PdfOutcome) (path : List Char) :
    ((∃ e, load_document fs avail pdf path = .error e) ↔ fs path = none) ∧
    (∀ c, fs path = some c → splitextExt (path.map pyLower) = ".txt".toList →
      load_document fs avail pdf path = .ok c) ∧
    (∀ c, fs path = some c →
      splitextExt (path.map pyLower) ∈ [".jpg".toList, ".jpeg".toList,
        ".png".toList, ".bmp".toList, ".tiff".toList] →
      load_document fs avail pdf path = .ok imageSentinel) := by
  refine ⟨⟨?_, ?_⟩, ?_, ?_⟩
  · rintro ⟨e, he⟩
    cases hfs : fs path with
    | none => rfl
    | some c =>
      obtain ⟨r, hr⟩ := load_document_ok fs avail pdf path c hfs
      rw [hr] at he
      exact nomatch he
  · intro h0
    have herr : load_document fs avail pdf path =
        .error (.fileNotFound ("文件未找到: ".toList ++ path)) := by
      unfold load_document
      rw [h0]
    exact ⟨_, herr⟩
  · intro c hfs hext
    unfold load_document
    rw [hfs]
    dsimp only
    rw [if_pos hext]
  · intro c hfs hext
    unfold load_document
    rw [hfs]
    dsimp only
    have h1 : splitextExt (path.map pyLower) ≠ ".txt".toList := by
      intro h
      rw [h] at hext
      simp at hext
    have h2 : splitextExt (path.map pyLower) ≠ ".md".toList := by
      intro h
      rw [h] at hext
      simp at hext
    have h3 : splitextExt (path.map pyLower) ≠ ".pdf".toList := by
      intro h
      rw [h] at hext
      simp at hext
    rw [if_neg h1, if_neg h2, if_neg h3, if_pos hext]

/-- Witness for `load_document_spec`: a one-file filesystem holding
`a.txt` with contents `hello`; loading returns those exact contents. -/
theorem load_document_spec_witness :
    load_document (fun p => if p = "a.txt".toList then some "hello".toList else none)
      true (fun _ => .text []) "a.txt".toList = .ok "hello".toList :=
  (load_document_spec (fun p => if p = "a.txt".toList then some "hello".toList else none)
    true (fun _ => .text []) "a.txt".toList).2.1 "hello".toList (by rfl) (by rfl)

/-!
## LLM client: `LLMIntegrator` (llm_integrator.py)

The HTTP transport is an oracle: `requests.post` either raises a
`RequestException` or yields a response with a status code and a body that
may or may not decode as JSON.  Exceptions inside the `try` block are an
`Except PyExc` computation; the two `except` clauses at lines 116 and 124
catch every one of them.
-/

/-- A model of the JSON values a decoded response body can be. -/
inductive Json
  | null
  | bool (b : Bool)
  | num (n : Int)
  | str (s : List Char)
  | arr (xs : List Json)
  | obj (fields : List (List Char × Json))

/-- Python truthiness of a JSON value. -/
def Json.truthy : Json → Bool
  | .null => false
  | .bool b => b
  | .num n => n != 0
  | .str s => !s.isEmpty
  | .arr xs => !xs.isEmpty
  | .obj fields => !fields.isEmpty

/-- The exceptions that can arise inside `generate_answer`'s `try` block. -/
inductive PyExc
  | requestExc    -- `requests.post` failed, or `raise_for_status` on 4xx/5xx
  | jsonDecodeExc -- `response.json()` failed
  | attrOrTypeExc -- `.get`/`len`/subscript/`.strip` on a non-conforming value

/-- Whether the exception is a `requests.exceptions.RequestException`, caught
by the first `except` clause (line 116); the rest fall to the second (line
124).  `JSONDecodeError` subclasses `RequestException` in requests ≥ 2.27. -/
def PyExc.isRequest : PyExc → Bool
  | .requestExc => true
  | .jsonDecodeExc => true
  | .attrOrTypeExc => false

/-- `dict.get(key)`; `.get` on a non-dict raises `AttributeError`. -/
def Json.get : Json → List Char → Except PyExc (Option Json)
  | .obj fields, key => .ok ((fields.find? (fun kv => kv.1 == key)).map (·.2))
  | _, _ => .error .attrOrTypeExc

/-- Python `len` (`TypeError` on unsized values). -/
def Json.len : Json → Except PyExc Nat
  | .str s => .ok s.length
  | .arr xs => .ok xs.length
  | .obj fields => .ok fields.length
  | _ => .error .attrOrTypeExc

/-- Python `x[0]`: first element of a list, 1-character string of a string
(`IndexError` when empty); `KeyError`/`TypeError` otherwise (JSON object keys
are strings, so `d[0]` on a decoded dict raises). -/
def Json.idx0 : Json → Except PyExc Json
  | .arr (x :: _) => .ok x
  | .str (c :: _) => .ok (.str [c])
  | _ => .error .attrOrTypeExc

/-- `.strip()` (`AttributeError` on non-strings). -/
def Json.stripStr : Json → Except PyExc (List Char)
  | .str s => .ok (pyStrip s)
  | _ => .error .attrOrTypeExc

/-- Diagnostic returned at llm_integrator.py line 114. -/
def diagNoExtract : List Char :=
  "Sorry, I received a response but could not extract an answer.".toList

/-- Diagnostic returned at llm_integrator.py line 123. -/
def diagRequestError : List Char :=
  "Sorry, I encountered an error while trying to reach the language model.".toList

/-- Diagnostic returned at llm_integrator.py line 126. -/
def diagUnexpected : List Char :=
  "Sorry, an unexpected error occurred while processing your request with the language model.".toList

/-- The truthiness of `message and message.get("content")` (line 106). -/
def contentCheck : Option Json → Except PyExc Bool
  | none => .ok false
  | some message =>
    if message.truthy then
      match message.get "content".toList with
      | .error e => .error e
      | .ok none => .ok false
      | .ok (some content) => .ok content.truthy
    else .ok false

/-- `message["content"].strip()` (line 107): dict subscript then strip
(`KeyError` modelled alongside the other lookup failures). -/
def stripContent (message : Json) : Except PyExc (List Char) :=
  match message.get "content".toList with
  | .error e => .error e
  | .ok (some content) => content.stripStr
  | .ok none => .error .attrOrTypeExc

/-- The `elif`/fallback at lines 109–110: `choices[0].get("text")`,
truthiness test, then strip. -/
def tryTextFallback (c0 : Json) : Except PyExc (List Char) :=
  match c0.get "text".toList with
  | .error e => .error e
  | .ok (some text) => if text.truthy then text.stripStr else .ok diagNoExtract
  | .ok none => .ok diagNoExtract

/-- Lines 105–110 once the first choice `c0` is in hand: evaluate the
`if message and message.get("content")` condition, then return the stripped
content, or fall back to the `text` field, or fall through to the
could-not-extract return. -/
def extractFromChoice (c0 : Json) : Except PyExc (List Char) :=
  match c0.get "message".toList with
  | .error e => .error e
  | .ok messageOpt =>
    match contentCheck messageOpt, messageOpt with
    | .error e, _ => .error e
    | .ok true, some message => stripContent message
    | .ok true, none => .error .attrOrTypeExc
    | .ok false, _ => tryTextFallback c0

/-- Lines 104–114 of llm_integrator.py: extract the answer from the decoded
response with Python's truthiness and exception behaviour.  `.ok` carries
what the `try` block returns (stripped `message.content`, stripped
fallback `text`, or the could-not-extract diagnostic); `.error` a raised
exception. -/
def extractAnswer (responseData : Json) : Except PyExc (List Char) :=
  match responseData.get "choices".toList with
  | .error e => .error e
  | .ok none => .ok diagNoExtract
  | .ok (some choices) =>
    if choices.truthy then
      match choices.len with
      | .error e => .error e
      | .ok n =>
        if 0 < n then
          match choices.idx0 with
          | .error e => .error e
          | .ok c0 => extractFromChoice c0
        else .ok diagNoExtract
    else .ok diagNoExtract

/-- The transport oracle: outcome of `requests.post`. -/
inductive HttpOutcome
  | transportFail
  | resp (status : Nat) (body : Option Json)

/-- The `try` block at lines 95–114: POST, `raise_for_status` (which raises
`HTTPError` exactly for status codes 400–599), decode JSON, extract. -/
def tryBlock (outcome : HttpOutcome) : Except PyExc (List Char) :=
  match outcome with
  | .transportFail => .error .requestExc
  | .resp status body =>
    if 400 ≤ status ∧ status < 600 then .error .requestExc
    else
      match body with
      | none => .error .jsonDecodeExc
      | some responseData => extractAnswer responseData

/-- The state of a constructed `LLMIntegrator`. -/
structure LLMIntegrator where
  api_base_url : List Char
  api_key : Option (List Char)
  model_name : List Char

/-- Python `a or b` on optional strings (`None` and `""` are falsy). -/
def pyOrStr : Option (List Char) → Option (List Char) → Option (List Char)
  | some s, b => if s = [] then b else some s
  | none, b => b

/-- The `ValueError` message raised at llm_integrator.py line 23. -/
def urlMissingMsg : List Char :=
  "API base URL for DeepSeek is not provided. Set it via constructor or DEEPSEEK_API_BASE_URL environment variable.".toList

/-- `LLMIntegrator.__init__` (llm_integrator.py lines 9–41): resolve the base
URL and key from the arguments and the environment; raise `ValueError` when
the resolved URL is falsy (`None` or empty). -/
def LLMIntegrator.init (api_base_url api_key envBaseUrl envKey : Option (List Char))
    (model_name : List Char) : Except (List Char) LLMIntegrator :=
  let url := pyOrStr api_base_url envBaseUrl
  let key := pyOrStr api_key envKey
  match url with
  | none => .error urlMissingMsg
  | some u =>
    if u = [] then .error urlMissingMsg
    else .ok ⟨u, key, model_name⟩

/-- `LLMIntegrator.generate_answer` (llm_integrator.py lines 43–126) as a
function of the transport outcome (the query, context and sampling
parameters only shape the request payload, which the oracle absorbs).
`none` models the early `return None` at lines 56–58. -/
def generate_answer (self : LLMIntegrator) (outcome : HttpOutcome) :
    Option (List Char) :=
  if self.api_base_url = [] then none
  else
    some (match tryBlock outcome with
      | .ok s => s
      | .error e => if e.isRequest then diagRequestError else diagUnexpected)

theorem stripStr_ok (j : Json) (s : List Char) (h : j.stripStr = .ok s) :
    ∃ t, s = pyStrip t := by
  cases j <;> simp [Json.stripStr] at h
  exact ⟨_, h.symm⟩

theorem stripContent_ok_shape (m : Json) (s : List Char)
    (h : stripContent m = .ok s) : ∃ t, s = pyStrip t := by
  unfold stripContent at h
  split at h
  · exact nomatch h
  · exact stripStr_ok _ _ h
  · exact nomatch h

theorem tryTextFallback_ok_shape (c0 : Json) (s : List Char)
    (h : tryTextFallback c0 = .ok s) :
    s = diagNoExtract ∨ ∃ t, s = pyStrip t := by
  unfold tryTextFallback at h
  split at h
  · exact nomatch h
  · split at h
    · exact Or.inr (stripStr_ok _ _ h)
    · injection h with h
      exact Or.inl h.symm
  · injection h with h
    exact Or.inl h.symm

theorem extractFromChoice_ok_shape (c0 : Json) (s : List Char)
    (h : extractFromChoice c0 = .ok s) :
    s = diagNoExtract ∨ ∃ t, s = pyStrip t := by
  unfold extractFromChoice at h
  split at h
  · exact nomatch h
  · split at h
    · exact nomatch h
    · exact Or.inr (stripContent_ok_shape _ _ h)
    · exact nomatch h
    · exact tryTextFallback_ok_shape _ _ h

/-- Every normal return of the `try` block's extraction is either the
could-not-extract diagnostic or a `.strip()`-ed string. -/
theorem extractAnswer_ok_shape (rd : Json) (s : List Char)
    (h : extractAnswer rd = .ok s) :
    s = diagNoExtract ∨ ∃ t, s = pyStrip t := by
  unfold extractAnswer at h
  split at h
  · exact nomatch h
  · injection h with h
    exact Or.inl h.symm
  · split at h
    · split at h
      · exact nomatch h
      · split at h
        · split at h
          · exact nomatch h
          · exact extractFromChoice_ok_shape _ _ h
        · injection h with h
          exact Or.inl h.symm
    · injection h with h
      exact Or.inl h.symm

/-- **C9 counterexample**: a non-2xx status need not produce a diagnostic.
`raise_for_status` raises only for status codes 400–599, so a `300` response
whose JSON body carries `choices[0].message.content = "hi"` makes
`generate_answer` return the extracted answer `"hi"`, which is none of the
three diagnostic strings. -/
theorem generate_answer_non2xx_counterexample :
    generate_answer ⟨"u".toList, none, "m".toList⟩
      (.resp 300 (some (Json.obj [("choices".toList,
        Json.arr [Json.obj [("message".toList,
          Json.obj [("content".toList, Json.str "hi".toList)])]])]))) =
      some "hi".toList ∧
    "hi".toList ≠ diagNoExtract ∧
    "hi".toList ≠ diagRequestError ∧
    "hi".toList ≠ diagUnexpected := by
  refine ⟨rfl, by decide, by decide, by decide⟩

/-- **C9 amended**: `generate_answer` never propagates an exception: with a
configured base URL it always returns some string.  Every transport failure,
every 4xx/5xx status (the codes `raise_for_status` raises for, rather than
every non-2xx status), and every undecodable body yields the
request-error diagnostic; a raised extraction exception yields a diagnostic
chosen by the exception class; and when the extraction succeeds the returned
string is its value — the stripped `message.content` (or stripped `text`
fallback), or the could-not-extract diagnostic. -/
theorem generate_answer_no_throw (self : LLMIntegrator) (o : HttpOutcome)
    (hurl : self.api_base_url ≠ []) :
    (∃ s, generate_answer self o = some s) ∧
    (o = .transportFail → generate_answer self o = some diagRequestError) ∧
    (∀ st body, o = .resp st body → 400 ≤ st → st < 600 →
      generate_answer self o = some diagRequestError) ∧
    (∀ st, o = .resp st none → ¬(400 ≤ st ∧ st < 600) →
      generate_answer self o = some diagRequestError) ∧
    (∀ st rd s, o = .resp st (some rd) → ¬(400 ≤ st ∧ st < 600) →
      extractAnswer rd = .ok s → generate_answer self o = some s) ∧
    (∀ st rd e, o = .resp st (some rd) → ¬(400 ≤ st ∧ st < 600) →
      extractAnswer rd = .error e → generate_answer self o =
        some (if e.isRequest then diagRequestError else diagUnexpected)) ∧
    (∀ rd s, extractAnswer rd = .ok s → s = diagNoExtract ∨ ∃ t, s = pyStrip t) := by
  unfold generate_answer
  rw [if_neg hurl]
  refine ⟨⟨_, rfl⟩, ?_, ?_, ?_, ?_, ?_, ?_⟩
  · rintro rfl
    rfl
  · rintro st body rfl h4 h6
    simp only [tryBlock]
    rw [if_pos ⟨h4, h6⟩]
    rfl
  · rintro st rfl hst
    simp only [tryBlock]
    rw [if_neg hst]
    rfl
  · rintro st rd s rfl hst hex
    simp only [tryBlock]
    rw [if_neg hst, hex]
  · rintro st rd e rfl hst hex
    simp only [tryBlock]
    rw [if_neg hst, hex]
  · exact extractAnswer_ok_shape

/-- Witness for `generate_answer_no_throw`: a transport failure on a
configured instance returns the request-error diagnostic. -/
theorem generate_answer_no_throw_witness :
    generate_answer ⟨"http://x".toList, none, "m".toList⟩ .transportFail =
      some diagRequestError :=
  (generate_answer_no_throw ⟨"http://x".toList, none, "m".toList⟩
    .transportFail (by decide)).2.1 rfl

/-- **C10**: the constructor fails with `ValueError` exactly when the
resolved base URL (argument `or` environment) is falsy; hence every
successfully constructed instance has a non-empty `api_base_url`, the
`return None` branch of `generate_answer` is unreachable on it, and every
call returns some string. -/
theorem init_guarantees (api_base_url api_key envBaseUrl envKey : Option (List Char))
    (model_name : List Char) :
    ((∃ msg, LLMIntegrator.init api_base_url api_key envBaseUrl envKey model_name =
        .error msg) ↔
      (pyOrStr api_base_url envBaseUrl = none ∨
        pyOrStr api_base_url envBaseUrl = some [])) ∧
    (∀ inst, LLMIntegrator.init api_base_url api_key envBaseUrl envKey model_name =
        .ok inst →
      inst.api_base_url ≠ [] ∧ ∀ o, ∃ s, generate_answer inst o = some s) := by
  cases hurl : pyOrStr api_base_url envBaseUrl with
  | none =>
    have hinit : LLMIntegrator.init api_base_url api_key envBaseUrl envKey model_name =
        .error urlMissingMsg := by
      unfold LLMIntegrator.init
      rw [hurl]
    rw [hinit]
    refine ⟨⟨fun _ => Or.inl rfl, fun _ => ⟨_, rfl⟩⟩, ?_⟩
    intro inst hok
    exact nomatch hok
  | some u =>
    by_cases hu : u = []
    · subst hu
      have hinit : LLMIntegrator.init api_base_url api_key envBaseUrl envKey model_name =
          .error urlMissingMsg := by
        unfold LLMIntegrator.init
        rw [hurl]
        rfl
      rw [hinit]
      refine ⟨⟨fun _ => Or.inr rfl, fun _ => ⟨_, rfl⟩⟩, ?_⟩
      intro inst hok
      exact nomatch hok
    · have hinit : LLMIntegrator.init api_base_url api_key envBaseUrl envKey model_name =
          .ok ⟨u, pyOrStr api_key envKey, model_name⟩ := by
        unfold LLMIntegrator.init
        rw [hurl]
        dsimp only
        rw [if_neg hu]
      rw [hinit]
      refine ⟨⟨?_, ?_⟩, ?_⟩
      · rintro ⟨msg, hmsg⟩
        exact nomatch hmsg
      · rintro (h | h)
        · exact nomatch h
        · injection h with h
          exact absurd h hu
      · intro inst hok
        injection hok with hok
        subst hok
        refine ⟨hu, fun o => ?_⟩
        unfold generate_answer
        rw [if_neg hu]
        exact ⟨_, rfl⟩

/-- Witness for `init_guarantees`: a constructor call with an explicit URL
succeeds and its `generate_answer` returns a string on a transport failure. -/
theorem init_guarantees_witness :
    ∃ s, generate_answer ⟨"http://x".toList, none, "m".toList⟩
      (.resp 500 none) = some s :=
  ((init_guarantees (some "http://x".toList) none none none "m".toList).2
    ⟨"http://x".toList, none, "m".toList⟩ (by rfl)).2 (.resp 500 none)

end QA
